import Mathlib

/-!
Verification of the stream-handbook example programs against their
natural-language specification.

The embedding below translates the example scripts of the repository:

* `example/writable.js` — a hand-rolled writable stream that counts bytes
  (`s.write`, `s.end`, `s.destroy`);
* `example/html-streams/render.js` — a `through` stream that JSON-parses each
  input line and queues one rendered HTML row per successfully parsed line;
* `example/dnode/crazy/server.js` — the `transform` RPC stub, whose reply is
  `s.replace(/[aeiou]{2,}/, Array(n+1).join('o')).toUpperCase()`;
* the `.pipe()` composition described by the handbook text (Node core code,
  not part of this repository), modelled from the spec.
-/

/-! ## The byte-counting writable stream (`example/writable.js`)

The script keeps three pieces of observable state: the `writable` flag set on
the stream object, the `bytes` counter, and everything printed with
`console.log` (modelled as an append-only log of lines).  Chunks are modelled
as strings; `buf.length` is the chunk's length. -/

structure WStream where
  writable : Bool
  bytes : Nat
  log : List String
  deriving Repr, DecidableEq

/-- Initial state: `s.writable = true`, `var bytes = 0`, nothing logged. -/
def initW : WStream := ⟨true, 0, []⟩

/-- `s.write = function (buf) { bytes += buf.length; }` — note the source has
no check of the `writable` flag. -/
def s_write (buf : String) (s : WStream) : WStream :=
  { s with bytes := s.bytes + buf.length }

/-- `s.end = function (buf) { if (arguments.length) s.write(buf);
s.writable = false; console.log(bytes + ' bytes written'); }`.
The optional argument models `arguments.length` being 0 or 1. -/
def s_end (buf : Option String) (s : WStream) : WStream :=
  let s1 := match buf with
    | some b => s_write b s
    | none => s
  { s1 with writable := false,
            log := s1.log ++ [toString s1.bytes ++ " bytes written"] }

/-- `s.destroy = function () { s.writable = false; }` -/
def s_destroy (s : WStream) : WStream :=
  { s with writable := false }

/-- Feeding a finite sequence of chunks through `s.write` in order. -/
def runWrites (chunks : List String) (s : WStream) : WStream :=
  chunks.foldl (fun st c => s_write c st) s

/-- What `readable.pipe(s)` does to the sink `s` for a source that emits
`chunks` and then ends: one `write` per chunk in order, then `end()` with no
argument. -/
def runPipe (chunks : List String) : WStream :=
  s_end none (runWrites chunks initW)

/-- Calling `s.end()` (no argument) repeatedly, `n` times. -/
def iterEnd (n : Nat) (s : WStream) : WStream :=
  match n with
  | 0 => s
  | k + 1 => iterEnd k (s_end none s)

/-! ## The delivery schedule of `.pipe()`

`.pipe()` itself is Node core code, not part of this repository; the handbook
text states that `.pipe()` listens for the source's `'data'` and `'end'`
events and calls the destination's `write` for each chunk and `end` at the
end.  The two definitions below model that contract from the spec. -/

/-- The operations a sink observes: a `write` carrying one chunk, or the
final `end`/finalize call. -/
inductive SinkOp where
  | write (chunk : String)
  | fin
  deriving Repr, DecidableEq

/-- Modelled from the spec: the sequence of sink operations a pipe performs
for a source that emits `chunks` in order and then signals end-of-stream,
with no saturation and no error — one `write` per chunk, in emission order,
followed by one finalize. -/
def pipeDeliver (chunks : List String) : List SinkOp :=
  chunks.map SinkOp.write ++ [SinkOp.fin]

/-- The chunks carried by the `write` operations of a schedule, in order. -/
def writesOf (ops : List SinkOp) : List String :=
  ops.filterMap (fun op => match op with
    | SinkOp.write c => some c
    | SinkOp.fin => none)

/-! ## The `through` stream of `example/html-streams/render.js`

The callback is
`function (line) { try { var row = JSON.parse(line) }
catch (err) { return this.emit('error', err) }
this.queue(hyperglue(html, {...}).outerHTML); }`.

`JSON.parse` and `hyperglue` are host-runtime / third-party functions, so the
embedding is parametric in them: `parse` either returns a parsed row or
throws (returns an error), and `glue` renders a parsed row to the HTML string
that `.outerHTML` yields. -/

/-- The observable effects of the through stream: the strings passed to
`this.queue`, and the errors passed to `this.emit('error', ·)`. -/
structure ThroughEffects (Row E : Type) where
  queued : List String
  errors : List E
  deriving Repr, DecidableEq

/-- One invocation of the `render.js` through callback on one input line. -/
def renderCallback {Row E : Type} (parse : String → Except E Row)
    (glue : Row → String) (line : String) : ThroughEffects Row E :=
  match parse line with
  | Except.error err => ⟨[], [err]⟩
  | Except.ok row => ⟨[glue row], []⟩

/-- Feeding a whole sequence of lines through the callback, accumulating the
queued outputs and emitted errors in order. -/
def renderRun {Row E : Type} (parse : String → Except E Row)
    (glue : Row → String) (lines : List String) : ThroughEffects Row E :=
  lines.foldl
    (fun acc line =>
      let eff := renderCallback parse glue line
      ⟨acc.queued ++ eff.queued, acc.errors ++ eff.errors⟩)
    ⟨[], []⟩

/-! ## `.pipe()` composition (`a.pipe(b).pipe(c)`)

`Stream.prototype.pipe` is Node core, not code of this repository; the
handbook text specifies that "`.pipe(target)` returns the destination stream,
`target`", and that piping connects the source's data flow to the
destination.  A pipe configuration is modelled as the ordered list of
established source→destination connections between stream identifiers. -/

/-- Modelled from the spec: `src.pipe(dst)` returns `dst` and records the
connection `src → dst` in the configuration. -/
def pipe {α : Type} (src dst : α) (cfg : List (α × α)) : α × List (α × α) :=
  (dst, cfg ++ [(src, dst)])

/-- The chained call `a.pipe(b).pipe(c)`: the second `.pipe` is invoked on
whatever the first returned. -/
def pipeChain {α : Type} (a b c : α) (cfg : List (α × α)) : α × List (α × α) :=
  let r1 := pipe a b cfg
  pipe r1.1 c r1.2

/-- Establishing `a → b` and then `b → c` as two separate calls, discarding
the return values. -/
def pipeSeparate {α : Type} (a b c : α) (cfg : List (α × α)) : List (α × α) :=
  (pipe b c (pipe a b cfg).2).2

/-- Modelled from the spec: the chunk sequence a stream `x` receives under a
configuration, given each stream's emitted chunk sequence — the concatenation,
in establishment order, of the emissions of every stream piped into `x`. -/
def receivedBy {α : Type} [DecidableEq α] (cfg : List (α × α))
    (emits : α → List String) (x : α) : List String :=
  (cfg.filter (fun e => e.2 = x)).flatMap (fun e => emits e.1)

/-! ## The dnode `transform` stub (`example/dnode/crazy/server.js`)

The reply is `s.replace(/[aeiou]{2,}/, oo).toUpperCase()` where
`oo = Array(n+1).join('o')`.  Strings are modelled as lists of characters. -/

/-- Membership in the regex character class `[aeiou]`. -/
def isVowel (c : Char) : Bool :=
  c = 'a' || c = 'e' || c = 'i' || c = 'o' || c = 'u'

/-- `Array(n+1).join('o')`: `len` empty slots joined with the separator, i.e.
`len - 1` copies of the separator. -/
def jsArrayJoin (len : Nat) (sep : List Char) : List Char :=
  match len with
  | 0 => []
  | 1 => []
  | k + 2 => sep ++ jsArrayJoin (k + 1) sep

/-- `s.replace(/[aeiou]{2,}/, rep)` (no `g` flag): replace the leftmost,
greedy match of two-or-more consecutive `[aeiou]` characters by `rep`,
leaving everything else unchanged; if there is no match the string is
returned unchanged. -/
def replaceFirstVowelRun (rep : List Char) : List Char → List Char
  | [] => []
  | c :: cs =>
    if isVowel c && (match cs with
                     | d :: _ => isVowel d
                     | [] => false)
    then rep ++ cs.dropWhile isVowel
    else c :: replaceFirstVowelRun rep cs

/-- The body of the `transform` stub's inner callback:
`fn(s.replace(/[aeiou]{2,}/, Array(n+1).join('o')).toUpperCase())`. -/
def transform (s : List Char) (n : Nat) : List Char :=
  (replaceFirstVowelRun (jsArrayJoin (n + 1) ['o']) s).map Char.toUpper

/-- `true` iff the string contains no two consecutive `[aeiou]` characters,
i.e. the regex `/[aeiou]{2,}/` has no match starting inside it. -/
def noVowelRun2 : List Char → Bool
  | [] => true
  | [_] => true
  | a :: b :: rest => !(isVowel a && isVowel b) && noVowelRun2 (b :: rest)

/-- `true` iff the string is empty or its last character is not a vowel. -/
def lastNotVowel : List Char → Bool
  | [] => true
  | [a] => ! isVowel a
  | _ :: b :: rest => lastNotVowel (b :: rest)

/-! ## Helper lemmas -/

lemma runWrites_bytes (chunks : List String) (s : WStream) :
    (runWrites chunks s).bytes = s.bytes + (chunks.map String.length).sum := by
  induction chunks generalizing s with
  | nil => simp [runWrites]
  | cons c cs ih =>
    simp [runWrites, List.foldl_cons] at *
    rw [ih]
    simp [s_write]
    ring

lemma runWrites_log (chunks : List String) (s : WStream) :
    (runWrites chunks s).log = s.log := by
  induction chunks generalizing s with
  | nil => rfl
  | cons c cs ih =>
    simp [runWrites, List.foldl_cons] at *
    rw [ih]
    rfl

lemma iterEnd_log_length (n : Nat) (s : WStream) :
    (iterEnd n s).log.length = s.log.length + n := by
  induction n generalizing s with
  | zero => rfl
  | succ k ih =>
    show (iterEnd k (s_end none s)).log.length = _
    rw [ih]
    simp [s_end]
    ring

lemma iterEnd_bytes (n : Nat) (s : WStream) :
    (iterEnd n s).bytes = s.bytes := by
  induction n generalizing s with
  | zero => rfl
  | succ k ih =>
    show (iterEnd k (s_end none s)).bytes = _
    rw [ih]
    rfl

lemma iterEnd_writable (n : Nat) (s : WStream) :
    (iterEnd (n + 1) s).writable = false := by
  induction n generalizing s with
  | zero => rfl
  | succ k ih =>
    show (iterEnd (k + 1) (s_end none s)).writable = false
    exact ih (s_end none s)

/-- The output the through callback queues for one line (`none` when the line
fails to parse). -/
def renderOk {Row E : Type} (parse : String → Except E Row)
    (glue : Row → String) (l : String) : Option String :=
  ((parse l).toOption).map glue

/-- The error the through callback emits for one line (`none` when the line
parses). -/
def renderErr {Row E : Type} (parse : String → Except E Row)
    (l : String) : Option E :=
  match parse l with
  | Except.error e => some e
  | Except.ok _ => none

lemma renderOk_of_ok {Row E : Type} {parse : String → Except E Row}
    {glue : Row → String} {l : String} {row : Row}
    (h : parse l = Except.ok row) : renderOk parse glue l = some (glue row) := by
  simp [renderOk, h, Except.toOption]

lemma renderOk_of_error {Row E : Type} {parse : String → Except E Row}
    {glue : Row → String} {l : String} {err : E}
    (h : parse l = Except.error err) : renderOk parse glue l = none := by
  simp [renderOk, h, Except.toOption]

lemma renderErr_of_ok {Row E : Type} {parse : String → Except E Row}
    {l : String} {row : Row}
    (h : parse l = Except.ok row) : renderErr parse l = none := by
  simp [renderErr, h]

lemma renderErr_of_error {Row E : Type} {parse : String → Except E Row}
    {l : String} {err : E}
    (h : parse l = Except.error err) : renderErr parse l = some err := by
  simp [renderErr, h]

lemma renderFold_aux {Row E : Type} (parse : String → Except E Row)
    (glue : Row → String) (lines : List String) (acc : ThroughEffects Row E) :
    (lines.foldl
      (fun acc line =>
        let eff := renderCallback parse glue line
        ⟨acc.queued ++ eff.queued, acc.errors ++ eff.errors⟩)
      acc)
      = ⟨acc.queued ++ lines.filterMap (renderOk parse glue),
         acc.errors ++ lines.filterMap (renderErr parse)⟩ := by
  induction lines generalizing acc with
  | nil => simp
  | cons l ls ih =>
    rw [List.foldl_cons, ih]
    cases h : parse l with
    | ok row =>
      simp [renderCallback, h, List.filterMap_cons,
            renderOk_of_ok h, renderErr_of_ok h]
    | error err =>
      simp [renderCallback, h, List.filterMap_cons,
            renderOk_of_error h, renderErr_of_error h]

lemma renderRun_eq {Row E : Type} (parse : String → Except E Row)
    (glue : Row → String) (lines : List String) :
    renderRun parse glue lines
      = ⟨lines.filterMap (renderOk parse glue),
         lines.filterMap (renderErr parse)⟩ := by
  rw [renderRun, renderFold_aux]
  simp

lemma renderOk_length {Row E : Type} (parse : String → Except E Row)
    (glue : Row → String) (lines : List String)
    (h : ∀ l ∈ lines, (parse l).toOption.isSome = true) :
    (lines.filterMap (renderOk parse glue)).length = lines.length := by
  induction lines with
  | nil => rfl
  | cons l ls ih =>
    have hl := h l (List.mem_cons_self l ls)
    cases hp : parse l with
    | ok row =>
      rw [List.filterMap_cons, renderOk_of_ok hp]
      simp [ih (fun x hx => h x (List.mem_cons_of_mem l hx))]
    | error err => simp [hp, Except.toOption] at hl

/-- `true` iff the string is empty or its first character is not a vowel. -/
def headNotVowel : List Char → Bool
  | [] => true
  | c :: _ => ! isVowel c

lemma jsArrayJoin_succ (n : Nat) :
    jsArrayJoin (n + 1) ['o'] = List.replicate n 'o' := by
  induction n with
  | zero => rfl
  | succ k ih =>
    show ['o'] ++ jsArrayJoin (k + 1) ['o'] = _
    rw [ih, List.replicate_succ]
    rfl

lemma replaceFirst_cons2 (rep : List Char) (a b : Char) (l : List Char) :
    replaceFirstVowelRun rep (a :: b :: l)
      = if isVowel a && isVowel b
        then rep ++ (b :: l).dropWhile isVowel
        else a :: replaceFirstVowelRun rep (b :: l) := rfl

lemma replaceFirst_skip (rep rest : List Char) :
    ∀ p : List Char, noVowelRun2 p = true → lastNotVowel p = true →
      replaceFirstVowelRun rep (p ++ rest) = p ++ replaceFirstVowelRun rep rest := by
  intro p
  induction p with
  | nil => intro _ _; rfl
  | cons a p' ih =>
    intro hp hl
    cases p' with
    | nil =>
      have ha : isVowel a = false := by
        simpa [lastNotVowel] using hl
      simp [replaceFirstVowelRun, ha]
    | cons b p'' =>
      have hab : (isVowel a && isVowel b) = false := by
        simp [noVowelRun2] at hp
        rcases hp.1 with h | h <;> simp [h]
      have hp' : noVowelRun2 (b :: p'') = true := by
        simp [noVowelRun2] at hp ⊢
        exact hp.2
      have hl' : lastNotVowel (b :: p'') = true := hl
      have hrec := ih hp' hl'
      show replaceFirstVowelRun rep (a :: b :: (p'' ++ rest)) = _
      rw [replaceFirst_cons2, hab]
      simp only [Bool.false_eq_true, if_false, List.cons_append]
      simp only [List.cons_append] at hrec
      rw [hrec]

lemma dropWhile_vowels_append (l1 l2 : List Char) (h : l1.all isVowel = true) :
    (l1 ++ l2).dropWhile isVowel = l2.dropWhile isVowel := by
  induction l1 with
  | nil => rfl
  | cons c cs ih =>
    rw [List.all_cons, Bool.and_eq_true] at h
    simp [List.dropWhile_cons, h.1, ih h.2]

lemma dropWhile_headNotVowel (q : List Char) (h : headNotVowel q = true) :
    q.dropWhile isVowel = q := by
  cases q with
  | nil => rfl
  | cons c q' =>
    have : isVowel c = false := by simpa [headNotVowel] using h
    simp [List.dropWhile_cons, this]

lemma replaceFirst_noRun (rep : List Char) :
    ∀ s : List Char, noVowelRun2 s = true →
      replaceFirstVowelRun rep s = s := by
  intro s
  induction s with
  | nil => intro _; rfl
  | cons a s' ih =>
    intro hs
    cases s' with
    | nil => simp [replaceFirstVowelRun]
    | cons b s'' =>
      have hab : (isVowel a && isVowel b) = false := by
        simp [noVowelRun2] at hs
        rcases hs.1 with h | h <;> simp [h]
      have hs' : noVowelRun2 (b :: s'') = true := by
        simp [noVowelRun2] at hs ⊢
        exact hs.2
      rw [replaceFirst_cons2, hab]
      simp only [Bool.false_eq_true, if_false]
      rw [ih hs']

lemma renderErr_nil {Row E : Type} (parse : String → Except E Row)
    (lines : List String)
    (h : ∀ l ∈ lines, (parse l).toOption.isSome = true) :
    lines.filterMap (renderErr parse) = [] := by
  induction lines with
  | nil => rfl
  | cons l ls ih =>
    have hl := h l (List.mem_cons_self l ls)
    cases hp : parse l with
    | ok row =>
      rw [List.filterMap_cons, renderErr_of_ok hp]
      exact ih (fun x hx => h x (List.mem_cons_of_mem l hx))
    | error err => simp [hp, Except.toOption] at hl

/-! ## Claim theorems -/

/-- C1: for every finite sequence of chunks produced by a source piped to a
sink, the sink's write operation is invoked exactly once per chunk, in the
identical order — no reordering, duplication, or loss — absent saturation and
error; and the `render.js` through stream queues exactly one output per input
line, in input order, when every line parses. -/
theorem pipe_order_preserved {Row E : Type} (chunks lines : List String)
    (parse : String → Except E Row) (glue : Row → String)
    (h : ∀ l ∈ lines, (parse l).toOption.isSome = true) :
    writesOf (pipeDeliver chunks) = chunks ∧
    (renderRun parse glue lines).queued = lines.filterMap (renderOk parse glue) ∧
    (renderRun parse glue lines).queued.length = lines.length ∧
    (renderRun parse glue lines).errors = [] := by
  refine ⟨?_, ?_, ?_, ?_⟩
  · induction chunks with
    | nil => rfl
    | cons c cs ih =>
      simp [pipeDeliver, writesOf, List.filterMap_cons] at ih ⊢
      exact ih
  · rw [renderRun_eq]
  · rw [renderRun_eq]
    exact renderOk_length parse glue lines h
  · rw [renderRun_eq]
    exact renderErr_nil parse lines h

theorem pipe_order_preserved_witness :
    writesOf (pipeDeliver ["a", "b"]) = ["a", "b"] ∧
    (renderRun (fun _ => (Except.ok 0 : Except String Nat))
        (fun _ => "<tr></tr>") ["x", "y"]).queued
      = (["x", "y"] : List String).filterMap
          (renderOk (fun _ => (Except.ok 0 : Except String Nat))
            (fun _ => "<tr></tr>")) ∧
    (renderRun (fun _ => (Except.ok 0 : Except String Nat))
        (fun _ => "<tr></tr>") ["x", "y"]).queued.length
      = (["x", "y"] : List String).length ∧
    (renderRun (fun _ => (Except.ok 0 : Except String Nat))
        (fun _ => "<tr></tr>") ["x", "y"]).errors = [] :=
  pipe_order_preserved ["a", "b"] ["x", "y"]
    (fun _ => (Except.ok 0 : Except String Nat)) (fun _ => "<tr></tr>")
    (fun _ _ => rfl)

/-- C2: `end(buf)` behaves exactly as write-then-close: it performs
`write(buf)` first — so `buf`'s bytes are included in the reported total —
then sets `writable` to `false` and logs the total; `end()` with no chunk
performs only the close-and-report step. -/
theorem end_write_then_close (buf : String) (s : WStream) :
    s_end (some buf) s = s_end none (s_write buf s) ∧
    (s_end (some buf) s).bytes = s.bytes + buf.length ∧
    s_end none s
      = ⟨false, s.bytes, s.log ++ [toString s.bytes ++ " bytes written"]⟩ :=
  ⟨rfl, rfl, rfl⟩

/-- C3: the byte counter equals the sum of the lengths of every chunk passed
via `write`, plus the final chunk passed via `end` when present: no chunk is
dropped from the bookkeeping. -/
theorem bytes_total (chunks : List String) (lastChunk : Option String) :
    (s_end lastChunk (runWrites chunks initW)).bytes
      = (chunks.map String.length).sum
        + (match lastChunk with
           | some b => b.length
           | none => 0) := by
  cases lastChunk with
  | none => simp [s_end, runWrites_bytes, initW]
  | some b =>
    simp [s_end, s_write, runWrites_bytes, initW]

/-- C4 counterexample: after `end()` has set `writable` to `false`, a
subsequent `write("a")` still changes the byte count — it does not fail with
any `ClosedStreamError`. -/
theorem write_after_end_cex :
    (s_end none initW).writable = false ∧
    (s_write "a" (s_end none initW)).bytes ≠ (s_end none initW).bytes := by
  decide

/-- C4 amended: the example writable has no closed-state guard: after
`writable` has been set to `false` (by `end()` or `destroy()`), `write(buf)`
still succeeds and adds `buf.length` to the byte counter; closing only clears
the `writable` flag and no `ClosedStreamError` exists. -/
theorem write_ignores_closed (buf : String) (s : WStream)
    (h : s.writable = false) :
    (s_write buf s).bytes = s.bytes + buf.length ∧
    (s_write buf s).writable = false ∧
    (s_write buf s).log = s.log :=
  ⟨rfl, h, rfl⟩

theorem write_ignores_closed_witness :
    (s_write "a" (s_end none initW)).bytes = (s_end none initW).bytes + "a".length ∧
    (s_write "a" (s_end none initW)).writable = false ∧
    (s_write "a" (s_end none initW)).log = (s_end none initW).log :=
  write_ignores_closed "a" (s_end none initW) rfl

/-- C5 counterexample: calling `end()` twice is observably different from
calling it once — the bytes-written report is logged twice. -/
theorem double_end_cex :
    (iterEnd 2 initW).log.length = 2 ∧ iterEnd 2 initW ≠ iterEnd 1 initW := by
  decide

/-- C5 amended: repeated `end()` calls are idempotent on the stream state
(`writable` is `false` after every call from the first on, and the byte
count never changes), but the bytes-written notification is emitted once per
call: N calls produce N reports, not one. -/
theorem end_repeats_report (n : Nat) (s : WStream) :
    (iterEnd (n + 1) s).writable = false ∧
    (iterEnd n s).bytes = s.bytes ∧
    (iterEnd n s).log.length = s.log.length + n :=
  ⟨iterEnd_writable n s, iterEnd_bytes n s, iterEnd_log_length n s⟩

/-- C6: `pipe(dst)` returns `dst`, so `a.pipe(b).pipe(c)` establishes exactly
the two connections `a→b` and `b→c`, the same configuration as establishing
them separately, hence `c` receives an identical chunk sequence; taking
`c = a` yields the duplex composition `a.pipe(b).pipe(a)` with connections
`a→b` and `b→a`. -/
theorem pipe_chaining {α : Type} [DecidableEq α] (a b c : α)
    (cfg : List (α × α)) (emits : α → List String) :
    (pipe a b cfg).1 = b ∧
    (pipeChain a b c cfg).1 = c ∧
    (pipeChain a b c cfg).2 = pipeSeparate a b c cfg ∧
    receivedBy (pipeChain a b c cfg).2 emits c
      = receivedBy (pipeSeparate a b c cfg) emits c ∧
    (pipeChain a b a cfg).2 = cfg ++ [(a, b), (b, a)] := by
  refine ⟨rfl, rfl, rfl, rfl, ?_⟩
  simp [pipeChain, pipe]

/-- C7: a zero-length chunk is a valid chunk, not end-of-stream: a source
emitting one empty chunk then ending makes the sink receive exactly one
`write("")` (adding 0 bytes) and then one finalize, in that order; the byte
counter reports 0 bytes written, once. -/
theorem zero_length_chunk :
    pipeDeliver [""] = [SinkOp.write "", SinkOp.fin] ∧
    runPipe [""] = ⟨false, 0, ["0 bytes written"]⟩ := by
  decide

/-- C8: `destroy()` is an abrupt teardown: from every state it sets
`writable` to `false` and changes nothing else — the byte counter is
untouched and no bytes-written report is logged. -/
theorem destroy_only_clears_writable (s : WStream) :
    (s_destroy s).writable = false ∧
    (s_destroy s).bytes = s.bytes ∧
    (s_destroy s).log = s.log :=
  ⟨rfl, rfl, rfl⟩

/-- C9: for each input line of the `render.js` through stream, a parse
failure emits exactly one error and queues nothing, and a parse success
queues exactly one rendered string and emits no error — output is produced
iff parsing succeeds. -/
theorem render_output_iff_parse {Row E : Type} (parse : String → Except E Row)
    (glue : Row → String) (line : String) :
    (match parse line with
     | Except.ok row => renderCallback parse glue line = ⟨[glue row], []⟩
     | Except.error err => renderCallback parse glue line = ⟨[], [err]⟩) := by
  cases h : parse line with
  | ok row => simp [renderCallback, h]
  | error err => simp [renderCallback, h]

/-- C10: the dnode `transform` stub replies with the input in which the first
maximal run of two or more consecutive lowercase vowels is replaced by
`Array(n+1).join('o')` — exactly `n` letters `o` — and the whole result
uppercased; a string with no such run is merely uppercased. -/
theorem transform_first_vowel_run (p vrun q s : List Char) (n : Nat)
    (hrun : vrun.all isVowel = true) (hlen : 2 ≤ vrun.length)
    (hp : noVowelRun2 p = true) (hpl : lastNotVowel p = true)
    (hq : headNotVowel q = true) :
    transform (p ++ vrun ++ q) n
      = (p ++ List.replicate n 'o' ++ q).map Char.toUpper ∧
    (noVowelRun2 s = true → transform s n = s.map Char.toUpper) := by
  constructor
  · cases vrun with
    | nil => simp at hlen
    | cons v vs =>
      cases vs with
      | nil => simp at hlen
      | cons w ws =>
        rw [List.all_cons, Bool.and_eq_true] at hrun
        obtain ⟨hv, hrun'⟩ := hrun
        rw [List.all_cons, Bool.and_eq_true] at hrun'
        obtain ⟨hw, hws⟩ := hrun'
        unfold transform
        rw [jsArrayJoin_succ, List.append_assoc,
            replaceFirst_skip _ _ p hp hpl]
        simp only [List.cons_append]
        rw [replaceFirst_cons2, hv, hw]
        simp only [Bool.and_self, if_true]
        have hdrop : (w :: (ws ++ q)).dropWhile isVowel = q := by
          have h1 : (w :: ws).all isVowel = true := by
            rw [List.all_cons, Bool.and_eq_true]
            exact ⟨hw, hws⟩
          have h2 := dropWhile_vowels_append (w :: ws) q h1
          simp only [List.cons_append] at h2
          rw [h2, dropWhile_headNotVowel q hq]
        rw [hdrop]
        simp [List.map_append, List.append_assoc]
  · intro hs
    unfold transform
    rw [replaceFirst_noRun _ s hs]

theorem transform_first_vowel_run_witness :
    (transform (['b'] ++ ['e', 'e'] ++ ['p']) 10
       = (['b'] ++ List.replicate 10 'o' ++ ['p']).map Char.toUpper ∧
     (noVowelRun2 ['b', 'c'] = true →
       transform ['b', 'c'] 10 = ['b', 'c'].map Char.toUpper)) ∧
    String.mk (transform "beep".data 10) = "BOOOOOOOOOOP" ∧
    String.mk (transform "beep".data 0) = "BP" :=
  ⟨transform_first_vowel_run ['b'] ['e', 'e'] ['p'] ['b', 'c'] 10
      (by decide) (by decide) (by decide) (by decide) (by decide),
   by decide, by decide⟩

theorem pipe_chaining_witness :
    (pipe 0 1 ([] : List (Nat × Nat))).1 = 1 ∧
    (pipeChain 0 1 2 ([] : List (Nat × Nat))).1 = 2 ∧
    (pipeChain 0 1 2 ([] : List (Nat × Nat))).2 = pipeSeparate 0 1 2 [] ∧
    receivedBy (pipeChain 0 1 2 ([] : List (Nat × Nat))).2 (fun _ => ["x"]) 2
      = receivedBy (pipeSeparate 0 1 2 []) (fun _ => ["x"]) 2 ∧
    (pipeChain 0 1 0 ([] : List (Nat × Nat))).2 = [] ++ [(0, 1), (1, 0)] :=
  have h := pipe_chaining 0 1 2 ([] : List (Nat × Nat)) (fun _ => ["x"])
  ⟨h.1, h.2.1, h.2.2.1, h.2.2.2.1, h.2.2.2.2⟩
